import Mathlib

/-!
# Thunar-Metadata-Properties: `thunar_extract_first_attachment`

A shallow embedding of `src/utils/gst_helpers.c`.  The function opens a media
file through libavformat, walks `fmt->streams` in index order and copies out
the `attached_pic` packet of the first stream that carries one, together with
the `filename` / `mimetype` tags of that stream.

The C function is stateful (an `AVFormatContext` handle, two optional
out-locations).  It is embedded as explicit state passing over `State`, which
also keeps a chronological log of the library calls the function performs.
-/

namespace ThunarMetadata

/-! ## Library data (libavformat / libavutil / glib) -/

/-- The libavutil enum `AVMediaType`. -/
inductive AVMediaType where
  | AVMEDIA_TYPE_UNKNOWN
  | AVMEDIA_TYPE_VIDEO
  | AVMEDIA_TYPE_AUDIO
  | AVMEDIA_TYPE_DATA
  | AVMEDIA_TYPE_SUBTITLE
  | AVMEDIA_TYPE_ATTACHMENT
  | AVMEDIA_TYPE_NB
  deriving DecidableEq, Repr

/-- A `GBytes`: an owned, immutable byte buffer. -/
abbrev GBytes := List Nat

/-- The fields of `AVPacket` the function reads.  `data = none` is a `NULL`
pointer, `some bs` points at the bytes `bs`; `size` is a C `int`. -/
structure AVPacket where
  data : Option (List Nat)
  size : Int
  deriving DecidableEq, Repr

/-- The fields of `AVCodecParameters` relevant to attachments: the media type
and the codec extradata (pointer and `int` size). -/
structure AVCodecParameters where
  codec_type : AVMediaType
  extradata : Option (List Nat)
  extradata_size : Int
  deriving DecidableEq, Repr

/-- One `AVDictionaryEntry`: a key and its value. -/
structure AVDictionaryEntry where
  key : String
  value : String
  deriving DecidableEq, Repr

/-- An `AVDictionary` is its entries in storage order (`NULL` is the empty
dictionary). -/
abbrev AVDictionary := List AVDictionaryEntry

/-- The fields of `AVStream` the function reads.  `codecpar = none` is a
`NULL` pointer. -/
structure AVStream where
  attached_pic : AVPacket
  codecpar : Option AVCodecParameters
  metadata : AVDictionary
  deriving DecidableEq, Repr

/-- The libavutil `av_toupper`: ASCII lower-case letters are mapped to upper
case, every other character is unchanged. -/
def av_toupper (c : Char) : Char :=
  if 97 ≤ c.toNat ∧ c.toNat ≤ 122 then Char.ofNat (c.toNat - 32) else c

/-- Key comparison of `av_dict_get` with `flags = 0`: the whole key must match,
ignoring ASCII case. -/
def key_matches (s key : String) : Bool :=
  s.toList.map av_toupper == key.toList.map av_toupper

/-- The libavutil `av_dict_get (m, key, NULL, 0)`: the first entry, in storage
order, whose key matches `key`; `none` is the `NULL` result. -/
def av_dict_get (m : AVDictionary) (key : String) : Option AVDictionaryEntry :=
  m.find? (fun e => key_matches e.key key)

/-- The glib `g_bytes_new (data, size)`: a fresh buffer holding a copy of the
first `size` bytes at `data`. -/
def g_bytes_new (data : Option (List Nat)) (size : Int) : GBytes :=
  (data.getD []).take size.toNat

/-- The glib `g_strdup`: a fresh copy of the string. -/
def g_strdup (s : String) : String := s

/-! ## The environment and the state -/

/-- What libavformat makes of the file at a path. -/
inductive Source where
  /-- `avformat_open_input` returns a negative value. -/
  | unopenable
  /-- The open succeeds and `avformat_find_stream_info` returns a negative
  value. -/
  | unprobeable
  /-- Both calls succeed; `fmt->streams[0 .. nb_streams)` is the list. -/
  | container (streams : List AVStream)
  deriving DecidableEq, Repr

/-- The `AVFormatContext *fmt` of the function: `closed` is `NULL`. -/
inductive Handle where
  | closed
  | opened
  deriving DecidableEq, Repr

/-- The library calls and stream accesses the function performs. -/
inductive Event where
  | network_init
  | open_input (ok : Bool)
  | find_stream_info (ok : Bool)
  | print (msg : String)
  | read_stream (i : Nat)
  | bytes_new (i : Nat)
  | dict_get (i : Nat) (key : String)
  | close_input
  deriving DecidableEq, Repr

/-- The mutable state of one call.  An out-parameter `char **p` is `none` when
`p` is `NULL` and `some v` when `p` points at a location holding `v`
(itself `none` for `NULL`); the two out-pointers, when given, point at
distinct locations. -/
structure State where
  fmt : Handle
  out_filename : Option (Option String)
  out_mime : Option (Option String)
  log : List Event
  deriving DecidableEq, Repr

/-- Append one event to the log. -/
def State.emit (s : State) (e : Event) : State :=
  { s with log := s.log ++ [e] }

/-- The libavformat `avformat_close_input (&fmt)`: frees the context and sets
the pointer to `NULL`; a `NULL` context is left alone. -/
def avformat_close_input (s : State) : State :=
  match s.fmt with
  | Handle.closed => s
  | Handle.opened => { s with fmt := Handle.closed, log := s.log ++ [Event.close_input] }

/-! ## The function -/

/-- The metadata block of lines 39-45 (and 56-62): both out-locations are reset
to `NULL`, then each is set to a copy of the tag value when the tag exists and
the out-pointer is not `NULL`. -/
def read_tags (i : Nat) (st : AVStream) (s : State) : State :=
  let s := { s with out_filename := s.out_filename.map (fun _ => none) }
  let s := { s with out_mime := s.out_mime.map (fun _ => none) }
  let s := s.emit (Event.dict_get i "filename")
  let s :=
    match av_dict_get st.metadata "filename", s.out_filename with
    | some tag, some _ => { s with out_filename := some (some (g_strdup tag.value)) }
    | _, _ => s
  let s := s.emit (Event.dict_get i "mimetype")
  match av_dict_get st.metadata "mimetype", s.out_mime with
  | some tag, some _ => { s with out_mime := some (some (g_strdup tag.value)) }
  | _, _ => s

/-- The `for` loop of lines 31-67 from index `i` on, over the streams not yet
visited.  `some bytes` is a `return bytes` from inside the loop, `none` is the
loop running to its end. -/
def scan_streams : Nat → List AVStream → State → Option GBytes × State
  | _, [], s => (none, s)
  | i, st :: rest, s =>
    let s := s.emit (Event.read_stream i)
    if decide (st.attached_pic.size > 0) && st.attached_pic.data.isSome then
      let bytes := g_bytes_new st.attached_pic.data st.attached_pic.size
      let s := s.emit (Event.bytes_new i)
      let s := read_tags i st s
      (some bytes, avformat_close_input s)
    else if st.codecpar.any (fun cp => cp.codec_type == AVMediaType.AVMEDIA_TYPE_ATTACHMENT) then
      if decide (st.attached_pic.size > 0) && st.attached_pic.data.isSome then
        let bytes := g_bytes_new st.attached_pic.data st.attached_pic.size
        let s := s.emit (Event.bytes_new i)
        let s := read_tags i st s
        (some bytes, avformat_close_input s)
      else scan_streams (i + 1) rest s
    else scan_streams (i + 1) rest s

/-- The function `thunar_extract_first_attachment (path, out_filename,
out_mime)`.  `fs` is what libavformat finds at each path; `path = none` is a
`NULL` path.  The result is the returned `GBytes *` (`none` for `NULL`) and
the state at return. -/
def thunar_extract_first_attachment (fs : String → Source) (path : Option String)
    (out_filename out_mime : Option (Option String)) : Option GBytes × State :=
  let s : State := { fmt := Handle.closed, out_filename := out_filename,
                     out_mime := out_mime, log := [] }
  match path with
  | none => (none, s)
  | some p =>
    let s := s.emit Event.network_init
    match fs p with
    | Source.unopenable =>
      let s := s.emit (Event.open_input false)
      let s := s.emit (Event.print ("[C-DEBUG] avformat_open_input failed for " ++ p ++ "\n"))
      (none, s)
    | Source.unprobeable =>
      let s := { s.emit (Event.open_input true) with fmt := Handle.opened }
      let s := s.emit (Event.find_stream_info false)
      let s := s.emit (Event.print "[C-DEBUG] avformat_find_stream_info failed\n")
      (none, avformat_close_input s)
    | Source.container streams =>
      let s := { s.emit (Event.open_input true) with fmt := Handle.opened }
      let s := s.emit (Event.find_stream_info true)
      match scan_streams 0 streams s with
      | (some bytes, s) => (some bytes, s)
      | (none, s) => (none, avformat_close_input s)

/-! ## Specification vocabulary -/

/-- The payload test of lines 34 and 54: `attached_pic.size > 0` and a
non-`NULL` `attached_pic.data`. -/
def has_attached_payload (st : AVStream) : Bool :=
  decide (st.attached_pic.size > 0) && st.attached_pic.data.isSome

/-- The classification of line 52: a non-`NULL` `codecpar` whose codec type is
`AVMEDIA_TYPE_ATTACHMENT`. -/
def is_attachment_type (st : AVStream) : Bool :=
  st.codecpar.any (fun cp => cp.codec_type == AVMediaType.AVMEDIA_TYPE_ATTACHMENT)

/-- The qualifying predicate of the specification (4.1, step 4): a non-empty
attached payload, or kind Attachment with a non-empty payload. -/
def qualifies (st : AVStream) : Bool :=
  has_attached_payload st || (is_attachment_type st && has_attached_payload st)

/-- The attached payload of a stream: the `size` bytes at `attached_pic.data`. -/
def attached_payload (st : AVStream) : GBytes :=
  g_bytes_new st.attached_pic.data st.attached_pic.size

/-- A packet is well formed when a non-`NULL` `data` points at `size` bytes or
more. -/
def packet_wf (p : AVPacket) : Prop :=
  ∀ d, p.data = some d → p.size ≤ (d.length : Int)

/-- The value of the tag `key` of a stream, `none` when the dictionary has no
such key. -/
def tag_value (st : AVStream) (key : String) : Option String :=
  (av_dict_get st.metadata key).map (fun tag => tag.value)

/-- What a caller observes of a call: the returned pointer and the contents of
the two out-locations. -/
def observable (r : Option GBytes × State) :
    Option GBytes × Option (Option String) × Option (Option String) :=
  (r.1, r.2.out_filename, r.2.out_mime)

/-- The state in which the loop of lines 31-67 is entered: the open and the
stream-info probe have succeeded. -/
def loop_entry (out_filename out_mime : Option (Option String)) : State :=
  { fmt := Handle.opened, out_filename := out_filename, out_mime := out_mime,
    log := [Event.network_init, Event.open_input true, Event.find_stream_info true] }

/-- The stream `st` at index `k` is the first of `streams` that passes the
payload test. -/
def first_with_payload (streams : List AVStream) (k : Nat) (st : AVStream) : Prop :=
  streams[k]? = some st ∧ has_attached_payload st = true ∧
    ∀ j : Nat, j < k → ∀ sj, streams[j]? = some sj → has_attached_payload sj = false

/-- The stream `st` at index `k` is the first qualifying stream of `streams`:
it qualifies and no stream of smaller index does.  This is the stream a
returned buffer is taken from. -/
def first_qualifying (streams : List AVStream) (k : Nat) (st : AVStream) : Prop :=
  streams[k]? = some st ∧ qualifies st = true ∧
    ∀ j : Nat, j < k → ∀ sj, streams[j]? = some sj → qualifies sj = false

/-- The single pass of the specification (design notes): one qualifying
predicate, and the first stream that satisfies it gives the buffer and the two
tags; no such stream gives the not-found outcome with the out-locations as
they were. -/
def find_first_attachment_single_pass :
    List AVStream → Option (Option String) → Option (Option String) →
      Option GBytes × Option (Option String) × Option (Option String)
  | [], f, m => (none, f, m)
  | st :: rest, f, m =>
    if qualifies st then
      (some (attached_payload st), f.map (fun _ => tag_value st "filename"),
        m.map (fun _ => tag_value st "mimetype"))
    else find_first_attachment_single_pass rest f m

/-! ## Sample inputs -/

/-- An empty packet: `data = NULL`, `size = 0`. -/
def emptyPacket : AVPacket := { data := none, size := 0 }

/-- A cover picture stream: codec type VIDEO with a three-byte attached
picture and both tags. -/
def coverStream : AVStream :=
  { attached_pic := { data := some [255, 216, 255], size := 3 },
    codecpar := some { codec_type := AVMediaType.AVMEDIA_TYPE_VIDEO,
                       extradata := none, extradata_size := 0 },
    metadata := [{ key := "filename", value := "cover.jpg" },
                 { key := "mimetype", value := "image/jpeg" }] }

/-- A second picture stream: codec type ATTACHMENT with a two-byte attached
picture. -/
def pictureStream : AVStream :=
  { attached_pic := { data := some [137, 80], size := 2 },
    codecpar := some { codec_type := AVMediaType.AVMEDIA_TYPE_ATTACHMENT,
                       extradata := none, extradata_size := 0 },
    metadata := [{ key := "filename", value := "back.png" },
                 { key := "mimetype", value := "image/png" }] }

/-- A Matroska-style font attachment: codec type ATTACHMENT, the payload in
the codec extradata, no attached picture. -/
def fontStream : AVStream :=
  { attached_pic := emptyPacket,
    codecpar := some { codec_type := AVMediaType.AVMEDIA_TYPE_ATTACHMENT,
                       extradata := some [0, 1, 0, 0], extradata_size := 4 },
    metadata := [{ key := "filename", value := "font.ttf" },
                 { key := "mimetype", value := "application/x-truetype-font" }] }

/-- A plain video stream: no attached picture, no tags. -/
def plainVideoStream : AVStream :=
  { attached_pic := emptyPacket,
    codecpar := some { codec_type := AVMediaType.AVMEDIA_TYPE_VIDEO,
                       extradata := none, extradata_size := 0 },
    metadata := [] }

/-- A stream whose packet has a positive size and a `NULL` data pointer. -/
def danglingStream : AVStream :=
  { attached_pic := { data := none, size := 7 },
    codecpar := none,
    metadata := [{ key := "filename", value := "ghost.bin" }] }

/-- A picture stream whose dictionary lists another tag first, then the MIME
type, then the filename. -/
def taggedStream : AVStream :=
  { attached_pic := { data := some [71, 73, 70], size := 3 },
    codecpar := some { codec_type := AVMediaType.AVMEDIA_TYPE_VIDEO,
                       extradata := none, extradata_size := 0 },
    metadata := [{ key := "title", value := "Front" },
                 { key := "mimetype", value := "image/gif" },
                 { key := "filename", value := "front.gif" }] }

/-- A picture stream with a filename tag and no MIME tag. -/
def filenameOnlyStream : AVStream :=
  { attached_pic := { data := some [66], size := 1 },
    codecpar := none,
    metadata := [{ key := "filename", value := "blob.bin" }] }

/-! ## Lemmas on the building blocks -/

theorem qualifies_eq (st : AVStream) : qualifies st = has_attached_payload st := by
  unfold qualifies
  cases has_attached_payload st <;> simp

theorem read_tags_fmt (i : Nat) (st : AVStream) (s : State) :
    (read_tags i st s).fmt = s.fmt := by
  unfold read_tags State.emit
  cases av_dict_get st.metadata "filename" <;> cases av_dict_get st.metadata "mimetype" <;>
    cases s.out_filename <;> cases s.out_mime <;> rfl

theorem read_tags_out_filename (i : Nat) (st : AVStream) (s : State) :
    (read_tags i st s).out_filename = s.out_filename.map (fun _ => tag_value st "filename") := by
  unfold read_tags State.emit tag_value g_strdup
  cases av_dict_get st.metadata "filename" <;> cases av_dict_get st.metadata "mimetype" <;>
    cases s.out_filename <;> cases s.out_mime <;> rfl

theorem read_tags_out_mime (i : Nat) (st : AVStream) (s : State) :
    (read_tags i st s).out_mime = s.out_mime.map (fun _ => tag_value st "mimetype") := by
  unfold read_tags State.emit tag_value g_strdup
  cases av_dict_get st.metadata "filename" <;> cases av_dict_get st.metadata "mimetype" <;>
    cases s.out_filename <;> cases s.out_mime <;> rfl

theorem read_tags_log (i : Nat) (st : AVStream) (s : State) :
    (read_tags i st s).log
      = s.log ++ [Event.dict_get i "filename", Event.dict_get i "mimetype"] := by
  unfold read_tags State.emit
  cases av_dict_get st.metadata "filename" <;> cases av_dict_get st.metadata "mimetype" <;>
    cases s.out_filename <;> cases s.out_mime <;> simp

theorem scan_streams_cons_pos (i : Nat) (st : AVStream) (rest : List AVStream) (s : State)
    (h : has_attached_payload st = true) :
    scan_streams i (st :: rest) s
      = (some (attached_payload st),
         avformat_close_input
           (read_tags i st ((s.emit (Event.read_stream i)).emit (Event.bytes_new i)))) := by
  unfold has_attached_payload at h
  simp only [scan_streams, h, if_true, attached_payload]

theorem scan_streams_cons_neg (i : Nat) (st : AVStream) (rest : List AVStream) (s : State)
    (h : has_attached_payload st = false) :
    scan_streams i (st :: rest) s = scan_streams (i + 1) rest (s.emit (Event.read_stream i)) := by
  unfold has_attached_payload at h
  simp only [scan_streams, h]
  split
  · rename_i hf
    exact absurd hf (by decide)
  · split <;> rfl

/-- Every list either has no element satisfying `p` or has a first one. -/
theorem exists_first_index {α : Type} (p : α → Bool) (l : List α) (h : ∃ x ∈ l, p x = true) :
    ∃ k x, l[k]? = some x ∧ p x = true ∧ ∀ j : Nat, j < k → ∀ y, l[j]? = some y → p y = false := by
  induction l with
  | nil => simp at h
  | cons a l ih =>
    by_cases ha : p a = true
    · exact ⟨0, a, by simp, ha, fun j hj => absurd hj (Nat.not_lt_zero j)⟩
    · have hl : ∃ x ∈ l, p x = true := by
        obtain ⟨x, hx, hpx⟩ := h
        rcases List.mem_cons.mp hx with rfl | hx
        · exact absurd hpx ha
        · exact ⟨x, hx, hpx⟩
      obtain ⟨k, x, hk, hpx, hmin⟩ := ih hl
      refine ⟨k + 1, x, by simpa using hk, hpx, ?_⟩
      intro j hj y hy
      cases j with
      | zero =>
        have : a = y := by simpa using hy
        subst this
        simpa using ha
      | succ j => exact hmin j (Nat.lt_of_succ_lt_succ hj) y (by simpa using hy)

/-- The loop over a list without payload runs to its end and only logs stream
reads. -/
theorem scan_streams_no_payload (l : List AVStream)
    (h : ∀ st ∈ l, has_attached_payload st = false) (i : Nat) (s : State) :
    (scan_streams i l s).1 = none ∧ (scan_streams i l s).2.fmt = s.fmt ∧
    (scan_streams i l s).2.out_filename = s.out_filename ∧
    (scan_streams i l s).2.out_mime = s.out_mime ∧
    ∃ evs, (scan_streams i l s).2.log = s.log ++ evs ∧ Event.close_input ∉ evs := by
  induction l generalizing i s with
  | nil => exact ⟨rfl, rfl, rfl, rfl, [], by simp [scan_streams], by simp⟩
  | cons st rest ih =>
    rw [scan_streams_cons_neg i st rest s (h st (List.mem_cons_self st rest))]
    obtain ⟨h1, h2, h3, h4, evs, h5, h6⟩ :=
      ih (fun x hx => h x (List.mem_cons_of_mem st hx)) (i + 1) (s.emit (Event.read_stream i))
    refine ⟨h1, h2, h3, h4, Event.read_stream i :: evs, ?_, ?_⟩
    · rw [h5]; simp [State.emit]
    · simpa using h6

/-- The loop returns at the first stream with payload: the state in which the
tags are read differs from the entry state only by logged reads. -/
theorem scan_streams_first (l : List AVStream) (k : Nat) (st : AVStream)
    (hk : l[k]? = some st) (hq : has_attached_payload st = true)
    (hmin : ∀ j : Nat, j < k → ∀ sj, l[j]? = some sj → has_attached_payload sj = false)
    (i : Nat) (s : State) :
    ∃ s1, scan_streams i l s
        = (some (attached_payload st), avformat_close_input (read_tags (i + k) st s1)) ∧
      s1.fmt = s.fmt ∧ s1.out_filename = s.out_filename ∧ s1.out_mime = s.out_mime ∧
      ∃ evs, s1.log = s.log ++ evs ∧ Event.close_input ∉ evs := by
  induction l generalizing k i s with
  | nil => simp at hk
  | cons a rest ih =>
    cases k with
    | zero =>
      have ha : a = st := by simpa using hk
      subst ha
      rw [scan_streams_cons_pos i a rest s hq]
      exact ⟨_, rfl, rfl, rfl, rfl, [Event.read_stream i, Event.bytes_new i],
        by simp [State.emit], by simp⟩
    | succ k =>
      have ha : has_attached_payload a = false := hmin 0 (Nat.succ_pos k) a (by simp)
      rw [scan_streams_cons_neg i a rest s ha]
      obtain ⟨s1, h1, h2, h3, h4, evs, h5, h6⟩ :=
        ih k (by simpa using hk)
          (fun j hj sj hsj => hmin (j + 1) (Nat.succ_lt_succ hj) sj (by simpa using hsj))
          (i + 1) (s.emit (Event.read_stream i))
      refine ⟨s1, ?_, h2, h3, h4, Event.read_stream i :: evs, ?_, ?_⟩
      · rw [h1]
        have : i + 1 + k = i + (k + 1) := by omega
        rw [this]
      · rw [h5]; simp [State.emit]
      · simpa using h6

theorem extract_container (fs : String → Source) (p : String) (streams : List AVStream)
    (f m : Option (Option String)) (hfs : fs p = Source.container streams) :
    thunar_extract_first_attachment fs (some p) f m
      = match scan_streams 0 streams (loop_entry f m) with
        | (some bytes, s) => (some bytes, s)
        | (none, s) => (none, avformat_close_input s) := by
  simp [thunar_extract_first_attachment, hfs, loop_entry, State.emit]

/-- A container without payload: `NULL`, out-locations untouched, handle
closed by the final close. -/
theorem extract_no_payload (fs : String → Source) (p : String) (streams : List AVStream)
    (f m : Option (Option String)) (hfs : fs p = Source.container streams)
    (h : ∀ st ∈ streams, has_attached_payload st = false) :
    ∃ s1, thunar_extract_first_attachment fs (some p) f m = (none, avformat_close_input s1) ∧
      s1.fmt = Handle.opened ∧ s1.out_filename = f ∧ s1.out_mime = m ∧
      Event.close_input ∉ s1.log := by
  obtain ⟨h1, h2, h3, h4, evs, h5, h6⟩ := scan_streams_no_payload streams h 0 (loop_entry f m)
  refine ⟨(scan_streams 0 streams (loop_entry f m)).2, ?_, h2, h3, h4, ?_⟩
  · rw [extract_container fs p streams f m hfs]
    rcases hr : scan_streams 0 streams (loop_entry f m) with ⟨r, s2⟩
    rw [hr] at h1
    simp only at h1
    subst h1
    rfl
  · rw [h5]
    simp [loop_entry, h6]

/-- A container whose first stream with payload is `st` at index `k`. -/
theorem extract_first (fs : String → Source) (p : String) (streams : List AVStream)
    (f m : Option (Option String)) (hfs : fs p = Source.container streams)
    (k : Nat) (st : AVStream) (hk : streams[k]? = some st)
    (hq : has_attached_payload st = true)
    (hmin : ∀ j : Nat, j < k → ∀ sj, streams[j]? = some sj → has_attached_payload sj = false) :
    ∃ s1, thunar_extract_first_attachment fs (some p) f m
        = (some (attached_payload st), avformat_close_input (read_tags k st s1)) ∧
      s1.fmt = Handle.opened ∧ s1.out_filename = f ∧ s1.out_mime = m ∧
      Event.close_input ∉ s1.log := by
  obtain ⟨s1, h1, h2, h3, h4, evs, h5, h6⟩ :=
    scan_streams_first streams k st hk hq hmin 0 (loop_entry f m)
  refine ⟨s1, ?_, h2, h3, h4, ?_⟩
  · rw [extract_container fs p streams f m hfs, h1]
    simp
  · rw [h5]
    simp [loop_entry, h6]

theorem attached_payload_length (st : AVStream) (hq : has_attached_payload st = true)
    (hwf : packet_wf st.attached_pic) :
    ((attached_payload st).length : Int) = st.attached_pic.size := by
  unfold has_attached_payload at hq
  unfold packet_wf at hwf
  unfold attached_payload g_bytes_new
  cases hd : st.attached_pic.data with
  | none => simp [hd] at hq
  | some d =>
    have h1 : st.attached_pic.size ≤ (d.length : Int) := hwf d hd
    have h2 : 0 < st.attached_pic.size := by simpa [hd] using hq
    simp only [Option.getD_some, List.length_take]
    omega

/-- The two ways a call on a readable container can end. -/
theorem extract_container_cases (fs : String → Source) (p : String) (streams : List AVStream)
    (f m : Option (Option String)) (hfs : fs p = Source.container streams) :
    ((∀ st ∈ streams, has_attached_payload st = false) ∧
      observable (thunar_extract_first_attachment fs (some p) f m) = (none, f, m)) ∨
    (∃ k st, first_with_payload streams k st ∧
      observable (thunar_extract_first_attachment fs (some p) f m)
        = (some (attached_payload st), f.map (fun _ => tag_value st "filename"),
           m.map (fun _ => tag_value st "mimetype"))) := by
  by_cases h : ∃ st ∈ streams, has_attached_payload st = true
  · right
    obtain ⟨k, st, hk, hq, hmin⟩ := exists_first_index has_attached_payload streams h
    obtain ⟨s1, h1, h2, h3, h4, _⟩ := extract_first fs p streams f m hfs k st hk hq hmin
    refine ⟨k, st, ⟨hk, hq, hmin⟩, ?_⟩
    rw [h1]
    simp only [observable, avformat_close_input, read_tags_fmt, h2, read_tags_out_filename,
      read_tags_out_mime, h3, h4]
  · left
    have h0 : ∀ st ∈ streams, has_attached_payload st = false := by
      intro st hst
      cases hp : has_attached_payload st with
      | false => rfl
      | true => exact absurd ⟨st, hst, hp⟩ h
    obtain ⟨s1, h1, h2, h3, h4, _⟩ := extract_no_payload fs p streams f m hfs h0
    refine ⟨h0, ?_⟩
    rw [h1]
    simp only [observable, avformat_close_input, h2, h3, h4]

/-- A call that does not reach the loop returns `NULL` and leaves the
out-locations alone. -/
theorem extract_not_container (fs : String → Source) (path : Option String)
    (f m : Option (Option String))
    (h : ∀ p streams, path = some p → fs p ≠ Source.container streams) :
    observable (thunar_extract_first_attachment fs path f m) = (none, f, m) := by
  cases path with
  | none => rfl
  | some p =>
    cases hs : fs p with
    | unopenable => simp [thunar_extract_first_attachment, hs, observable, State.emit]
    | unprobeable =>
      simp [thunar_extract_first_attachment, hs, observable, State.emit, avformat_close_input]
    | container streams => exact absurd hs (h p streams rfl)

theorem first_with_payload_unique (streams : List AVStream) (k k2 : Nat) (st st2 : AVStream)
    (h : first_with_payload streams k st) (h2 : first_with_payload streams k2 st2) :
    k = k2 ∧ st = st2 := by
  obtain ⟨hk, hq, hmin⟩ := h
  obtain ⟨hk2, hq2, hmin2⟩ := h2
  have hkk : k = k2 := by
    rcases Nat.lt_trichotomy k k2 with hlt | heq | hgt
    · have := hmin2 k hlt st hk
      rw [hq] at this
      exact absurd this (by decide)
    · exact heq
    · have := hmin k2 hgt st2 hk2
      rw [hq2] at this
      exact absurd this (by decide)
  subst hkk
  rw [hk] at hk2
  exact ⟨rfl, Option.some.inj hk2⟩

theorem first_qualifying_iff (streams : List AVStream) (k : Nat) (st : AVStream) :
    first_qualifying streams k st ↔ first_with_payload streams k st := by
  unfold first_qualifying first_with_payload
  simp only [qualifies_eq]

theorem avformat_close_input_opened (s : State) (h : s.fmt = Handle.opened) :
    avformat_close_input s
      = { s with fmt := Handle.closed, log := s.log ++ [Event.close_input] } := by
  unfold avformat_close_input
  rw [h]

theorem single_pass_no_payload (l : List AVStream) (f m : Option (Option String))
    (h : ∀ st ∈ l, has_attached_payload st = false) :
    find_first_attachment_single_pass l f m = (none, f, m) := by
  induction l with
  | nil => rfl
  | cons a rest ih =>
    have ha : qualifies a = false := by
      rw [qualifies_eq]
      exact h a (List.mem_cons_self a rest)
    simp only [find_first_attachment_single_pass, ha]
    exact ih (fun x hx => h x (List.mem_cons_of_mem a hx))

theorem single_pass_first (l : List AVStream) (f m : Option (Option String)) (k : Nat)
    (st : AVStream) (h : first_with_payload l k st) :
    find_first_attachment_single_pass l f m
      = (some (attached_payload st), f.map (fun _ => tag_value st "filename"),
          m.map (fun _ => tag_value st "mimetype")) := by
  induction l generalizing k with
  | nil =>
    obtain ⟨hk, _, _⟩ := h
    simp at hk
  | cons a rest ih =>
    obtain ⟨hk, hq, hmin⟩ := h
    cases k with
    | zero =>
      have ha : a = st := by simpa using hk
      subst ha
      have hqa : qualifies a = true := by rwa [qualifies_eq]
      simp only [find_first_attachment_single_pass, hqa, if_true]
    | succ k =>
      have ha : qualifies a = false := by
        rw [qualifies_eq]
        exact hmin 0 (Nat.succ_pos k) a (by simp)
      simp only [find_first_attachment_single_pass, ha]
      exact ih k ⟨by simpa using hk, hq,
        fun j hj sj hsj => hmin (j + 1) (Nat.succ_lt_succ hj) sj (by simpa using hsj)⟩

theorem attached_payload_eq_take (st : AVStream) (d : List Nat)
    (hd : st.attached_pic.data = some d) :
    attached_payload st = d.take st.attached_pic.size.toNat := by
  simp [attached_payload, g_bytes_new, hd]

theorem has_attached_payload_data (st : AVStream) (hq : has_attached_payload st = true) :
    ∃ d, st.attached_pic.data = some d := by
  unfold has_attached_payload at hq
  cases hd : st.attached_pic.data with
  | none => simp [hd] at hq
  | some d => exact ⟨d, rfl⟩

theorem av_toupper_eq (c : Char) : av_toupper c = c.toUpper := rfl

/-- The lookup of `av_dict_get` in terms of the library-independent upper-case
folding of characters. -/
theorem tag_value_eq_find (st : AVStream) (key : String) :
    tag_value st key
      = (st.metadata.find?
          (fun e => e.key.toList.map Char.toUpper == key.toList.map Char.toUpper)).map
          (fun e => e.value) := by
  have h : av_toupper = Char.toUpper := funext av_toupper_eq
  simp only [tag_value, av_dict_get, key_matches, h]

theorem tag_value_absent (st : AVStream) (key : String)
    (h : ∀ e ∈ st.metadata, e.key.toList.map Char.toUpper ≠ key.toList.map Char.toUpper) :
    tag_value st key = none := by
  rw [tag_value_eq_find]
  have : st.metadata.find?
      (fun e => e.key.toList.map Char.toUpper == key.toList.map Char.toUpper) = none := by
    rw [List.find?_eq_none]
    intro e he
    simpa using h e he
  rw [this]
  rfl

theorem tag_value_present (st : AVStream) (key : String) (pre post : List AVDictionaryEntry)
    (e : AVDictionaryEntry) (hm : st.metadata = pre ++ e :: post)
    (he : e.key.toList.map Char.toUpper = key.toList.map Char.toUpper)
    (hpre : ∀ x ∈ pre, x.key.toList.map Char.toUpper ≠ key.toList.map Char.toUpper) :
    tag_value st key = some e.value := by
  rw [tag_value_eq_find]
  have : st.metadata.find?
      (fun e => e.key.toList.map Char.toUpper == key.toList.map Char.toUpper) = some e := by
    rw [List.find?_eq_some]
    refine ⟨by simpa using he, pre, post, hm, ?_⟩
    intro a ha
    simpa using hpre a ha
  rw [this]
  rfl

/-! ## The claims -/

/-- C1: first match wins.  On a readable container with at least one
qualifying stream there is a qualifying stream of smallest index (no
qualifying stream precedes it), and the function returns, whatever the
out-parameters, a copy of the first `attached_pic.size` bytes at that stream's
`attached_pic.data`: the buffer is the packet's bytes themselves when the
packet holds exactly `size` bytes, it has `size` bytes and agrees with the
packet byte for byte when the packet holds `size` bytes or more, and no other
stream's bytes are returned. -/
theorem first_match_wins (fs : String → Source) (p : String) (streams : List AVStream)
    (f m : Option (Option String)) (hfs : fs p = Source.container streams)
    (h : ∃ st ∈ streams, qualifies st = true) :
    ∃ (k : Nat) (st : AVStream) (d : List Nat),
      streams[k]? = some st ∧ qualifies st = true ∧
      (∀ j : Nat, j < k → ∀ sj, streams[j]? = some sj → qualifies sj = false) ∧
      st.attached_pic.data = some d ∧
      (thunar_extract_first_attachment fs (some p) f m).1
        = some (d.take st.attached_pic.size.toNat) ∧
      ((d.length : Int) = st.attached_pic.size →
        (thunar_extract_first_attachment fs (some p) f m).1 = some d) ∧
      (st.attached_pic.size ≤ (d.length : Int) →
        ∃ b, (thunar_extract_first_attachment fs (some p) f m).1 = some b ∧
          (b.length : Int) = st.attached_pic.size ∧
          ∀ i : Nat, i < b.length → b[i]? = d[i]?) ∧
      (thunar_extract_first_attachment fs (some p) f m).1 = some (attached_payload st) ∧
      (packet_wf st.attached_pic →
        ((attached_payload st).length : Int) = st.attached_pic.size) := by
  have h2 : ∃ st ∈ streams, has_attached_payload st = true := by
    obtain ⟨st, hst, hq⟩ := h
    exact ⟨st, hst, by rwa [qualifies_eq] at hq⟩
  obtain ⟨k, st, hk, hq, hmin⟩ := exists_first_index has_attached_payload streams h2
  obtain ⟨s1, h1, _⟩ := extract_first fs p streams f m hfs k st hk hq hmin
  obtain ⟨d, hd⟩ := has_attached_payload_data st hq
  have hret : (thunar_extract_first_attachment fs (some p) f m).1
      = some (d.take st.attached_pic.size.toNat) := by
    rw [h1, attached_payload_eq_take st d hd]
  have hpos : 0 < st.attached_pic.size := by
    have hq2 := hq
    unfold has_attached_payload at hq2
    by_contra hn
    simp [hn] at hq2
  refine ⟨k, st, d, hk, by rwa [qualifies_eq], ?_, hd, hret, ?_, ?_, by rw [h1],
    attached_payload_length st hq⟩
  · intro j hj sj hsj
    rw [qualifies_eq]
    exact hmin j hj sj hsj
  · intro hlen
    rw [hret]
    have : st.attached_pic.size.toNat = d.length := by omega
    rw [this, List.take_length]
  · intro hle
    refine ⟨d.take st.attached_pic.size.toNat, hret, ?_, ?_⟩
    · rw [List.length_take]
      omega
    · intro i hi
      rw [List.length_take] at hi
      rw [List.getElem?_take]
      have : i < st.attached_pic.size.toNat := by omega
      simp [this]

/-- C1 at the two qualifying streams `[coverStream, pictureStream]`: the
returned bytes are those of `coverStream`, the stream of index 0, and not
those of `pictureStream`. -/
theorem first_match_wins_witness :
    (∃ st ∈ [coverStream, pictureStream], qualifies st = true) ∧
    (thunar_extract_first_attachment (fun _ => Source.container [coverStream, pictureStream])
      (some "a.mkv") (some none) none).1 = some [255, 216, 255] ∧
    (thunar_extract_first_attachment (fun _ => Source.container [coverStream, pictureStream])
      (some "a.mkv") (some none) none).1 ≠ some [137, 80] := by
  have h : ∃ st ∈ [coverStream, pictureStream], qualifies st = true :=
    ⟨coverStream, List.mem_cons_self _ _, by decide⟩
  obtain ⟨k, st, d, hk, _, hmin, hd, _, hfull, _⟩ :=
    first_match_wins (fun _ => Source.container [coverStream, pictureStream]) "a.mkv"
      [coverStream, pictureStream] (some none) none rfl h
  have hk0 : k = 0 := by
    by_contra hne
    have hc := hmin 0 (Nat.pos_of_ne_zero hne) coverStream rfl
    exact absurd hc (by decide)
  subst hk0
  have hst : coverStream = st := by simpa using hk
  subst hst
  have hd2 : [255, 216, 255] = d := Option.some.inj hd
  subst hd2
  have hret := hfull (by decide)
  refine ⟨h, hret, ?_⟩
  rw [hret]
  decide

/-- C2: payload gating.  The payload of a stream, attached-picture stream and
ATTACHMENT-typed stream alike, is its `attached_pic` packet, the only payload
the function reads.  On a readable container in which every stream, whatever
its codec type, has a zero-length or absent attached payload, the function
returns `NULL`; in particular it does not return a zero-length buffer, and
codec type ATTACHMENT without bytes does not qualify. -/
theorem payload_gating (fs : String → Source) (p : String) (streams : List AVStream)
    (f m : Option (Option String)) (hfs : fs p = Source.container streams)
    (h : ∀ st ∈ streams, st.attached_pic.size ≤ 0 ∨ st.attached_pic.data = none) :
    (thunar_extract_first_attachment fs (some p) f m).1 = none ∧
    (thunar_extract_first_attachment fs (some p) f m).1 ≠ some [] := by
  have h0 : ∀ st ∈ streams, has_attached_payload st = false := by
    intro st hst
    unfold has_attached_payload
    rcases h st hst with hs | hd
    · have : ¬ st.attached_pic.size > 0 := by omega
      simp [this]
    · simp [hd]
  obtain ⟨s1, h1, _⟩ := extract_no_payload fs p streams f m hfs h0
  rw [h1]
  simp

/-- C2 at a container with a stream of codec type ATTACHMENT and an empty
attached picture, followed by a stream of positive size and `NULL` data. -/
theorem payload_gating_witness :
    (∀ st ∈ [fontStream, danglingStream],
      st.attached_pic.size ≤ 0 ∨ st.attached_pic.data = none) ∧
    (thunar_extract_first_attachment (fun _ => Source.container [fontStream, danglingStream])
      (some "a.mkv") (some none) (some none)).1 = none ∧
    (thunar_extract_first_attachment (fun _ => Source.container [fontStream, danglingStream])
      (some "a.mkv") (some none) (some none)).1 ≠ some [] :=
  have h : ∀ st ∈ [fontStream, danglingStream],
      st.attached_pic.size ≤ 0 ∨ st.attached_pic.data = none := by
    intro st hst
    simp only [List.mem_cons, List.mem_singleton, List.not_mem_nil, or_false] at hst
    rcases hst with rfl | rfl
    · exact Or.inr rfl
    · exact Or.inr rfl
  ⟨h, payload_gating (fun _ => Source.container [fontStream, danglingStream]) "a.mkv"
    [fontStream, danglingStream] (some none) (some none) rfl h⟩

/-- C3, refuted as stated: the only stream of the container has codec type
VIDEO, the container has no stream of codec type ATTACHMENT, and the function
returns the three bytes of that stream. -/
theorem result_from_video_stream :
    (thunar_extract_first_attachment (fun _ => Source.container [coverStream])
      (some "song.mp3") (some none) (some none)).1 = some [255, 216, 255] ∧
    coverStream.codecpar.map (fun cp => cp.codec_type)
      = some AVMediaType.AVMEDIA_TYPE_VIDEO ∧
    [coverStream].filter is_attachment_type = [] := by
  decide

/-- C3, amended: a returned buffer is the attached payload of a stream of the
container whose `attached_pic` has positive size and non-`NULL` data (and, the
packet being well formed, the buffer is not empty); a container in which no
stream has such an `attached_pic` gives `NULL`. -/
theorem result_only_from_payload (fs : String → Source) (p : String)
    (streams : List AVStream) (f m : Option (Option String))
    (hfs : fs p = Source.container streams) :
    (∀ b, (thunar_extract_first_attachment fs (some p) f m).1 = some b →
      ∃ (k : Nat) (st : AVStream), streams[k]? = some st ∧ st.attached_pic.size > 0 ∧
        st.attached_pic.data ≠ none ∧ b = attached_payload st ∧
        (packet_wf st.attached_pic → b ≠ [])) ∧
    ((∀ st ∈ streams, ¬ (st.attached_pic.size > 0 ∧ st.attached_pic.data ≠ none)) →
      (thunar_extract_first_attachment fs (some p) f m).1 = none) := by
  rcases extract_container_cases fs p streams f m hfs with ⟨h0, hobs⟩ | ⟨k, st, hfirst, hobs⟩
  · have hret : (thunar_extract_first_attachment fs (some p) f m).1 = none :=
      congrArg Prod.fst hobs
    exact ⟨fun b hb => by rw [hret] at hb; exact absurd hb (by simp), fun _ => hret⟩
  · have hret : (thunar_extract_first_attachment fs (some p) f m).1
        = some (attached_payload st) := congrArg Prod.fst hobs
    obtain ⟨hk, hq, _⟩ := hfirst
    have hq2 := hq
    unfold has_attached_payload at hq2
    have hsz : st.attached_pic.size > 0 := by
      by_contra hn
      simp [hn] at hq2
    have hdt : st.attached_pic.data ≠ none := by
      intro hn
      simp [hn] at hq2
    constructor
    · intro b hb
      rw [hret] at hb
      have hb2 : attached_payload st = b := Option.some.inj hb
      refine ⟨k, st, hk, hsz, hdt, hb2.symm, ?_⟩
      intro hwf hnil
      have hlen := attached_payload_length st hq hwf
      rw [hb2, hnil] at hlen
      simp at hlen
      omega
    · intro hall
      have hmem : st ∈ streams := List.getElem?_mem hk
      exact absurd ⟨hsz, hdt⟩ (hall st hmem)

/-- C3 (amended) at the container `[plainVideoStream, coverStream]`. -/
theorem result_only_from_payload_witness :
    (∀ b, (thunar_extract_first_attachment
        (fun _ => Source.container [plainVideoStream, coverStream])
        (some "song.mp3") none none).1 = some b →
      ∃ (k : Nat) (st : AVStream),
        [plainVideoStream, coverStream][k]? = some st ∧ st.attached_pic.size > 0 ∧
        st.attached_pic.data ≠ none ∧ b = attached_payload st ∧
        (packet_wf st.attached_pic → b ≠ [])) ∧
    ((∀ st ∈ [plainVideoStream, coverStream],
        ¬ (st.attached_pic.size > 0 ∧ st.attached_pic.data ≠ none)) →
      (thunar_extract_first_attachment
        (fun _ => Source.container [plainVideoStream, coverStream])
        (some "song.mp3") none none).1 = none) :=
  result_only_from_payload (fun _ => Source.container [plainVideoStream, coverStream])
    "song.mp3" [plainVideoStream, coverStream] none none rfl

/-- C4: metadata of the winning stream only.  When the buffer is taken from
stream `k` (the first qualifying stream), the function returns its payload and
the same buffer without destinations.  The filename location, when given, ends
up holding the value of the first entry of stream `k`'s dictionary whose key
is `filename` up to ASCII case, or `NULL` when the dictionary has no such key;
the MIME location likewise for the key `mimetype`.  A missing key leaves the
buffer in place, and no other stream enters the outputs. -/
theorem metadata_of_winner (fs : String → Source) (p : String) (streams : List AVStream)
    (f m : Option (Option String)) (hfs : fs p = Source.container streams)
    (k : Nat) (st : AVStream) (hwin : first_qualifying streams k st) :
    (thunar_extract_first_attachment fs (some p) f m).1 = some (attached_payload st) ∧
    (thunar_extract_first_attachment fs (some p) none none).1
      = (thunar_extract_first_attachment fs (some p) f m).1 ∧
    (thunar_extract_first_attachment fs (some p) f m).2.out_filename
      = f.map (fun _ => (st.metadata.find? (fun e =>
          e.key.toList.map Char.toUpper == "filename".toList.map Char.toUpper)).map
          (fun e => e.value)) ∧
    (thunar_extract_first_attachment fs (some p) f m).2.out_mime
      = m.map (fun _ => (st.metadata.find? (fun e =>
          e.key.toList.map Char.toUpper == "mimetype".toList.map Char.toUpper)).map
          (fun e => e.value)) ∧
    ((∀ e ∈ st.metadata,
        e.key.toList.map Char.toUpper ≠ "filename".toList.map Char.toUpper) →
      (thunar_extract_first_attachment fs (some p) f m).2.out_filename
        = f.map (fun _ => none)) ∧
    ((∀ e ∈ st.metadata,
        e.key.toList.map Char.toUpper ≠ "mimetype".toList.map Char.toUpper) →
      (thunar_extract_first_attachment fs (some p) f m).2.out_mime
        = m.map (fun _ => none)) ∧
    (∀ pre e post, st.metadata = pre ++ e :: post →
      e.key.toList.map Char.toUpper = "filename".toList.map Char.toUpper →
      (∀ x ∈ pre, x.key.toList.map Char.toUpper ≠ "filename".toList.map Char.toUpper) →
      (thunar_extract_first_attachment fs (some p) f m).2.out_filename
        = f.map (fun _ => some e.value)) ∧
    (∀ pre e post, st.metadata = pre ++ e :: post →
      e.key.toList.map Char.toUpper = "mimetype".toList.map Char.toUpper →
      (∀ x ∈ pre, x.key.toList.map Char.toUpper ≠ "mimetype".toList.map Char.toUpper) →
      (thunar_extract_first_attachment fs (some p) f m).2.out_mime
        = m.map (fun _ => some e.value)) := by
  have hw := (first_qualifying_iff streams k st).mp hwin
  have key : ∀ f2 m2, observable (thunar_extract_first_attachment fs (some p) f2 m2)
      = (some (attached_payload st), f2.map (fun _ => tag_value st "filename"),
         m2.map (fun _ => tag_value st "mimetype")) := by
    intro f2 m2
    rcases extract_container_cases fs p streams f2 m2 hfs with ⟨h0, _⟩ | ⟨k2, st2, h2, hobs⟩
    · have := h0 st (List.getElem?_mem hw.1)
      rw [hw.2.1] at this
      exact absurd this (by decide)
    · obtain ⟨_, hst⟩ := first_with_payload_unique streams k k2 st st2 hw h2
      rw [hobs, hst]
  have h1 := key f m
  have h2 := key none none
  simp only [observable, Prod.mk.injEq] at h1 h2
  refine ⟨h1.1, by rw [h1.1, h2.1], ?_, ?_, ?_, ?_, ?_, ?_⟩
  · rw [h1.2.1, tag_value_eq_find]
  · rw [h1.2.2, tag_value_eq_find]
  · intro habs
    rw [h1.2.1, tag_value_absent st "filename" habs]
  · intro habs
    rw [h1.2.2, tag_value_absent st "mimetype" habs]
  · intro pre e post hm he hpre
    rw [h1.2.1, tag_value_present st "filename" pre post e hm he hpre]
  · intro pre e post hm he hpre
    rw [h1.2.2, tag_value_present st "mimetype" pre post e hm he hpre]

/-- C4 at two containers, both destinations holding stale values.  In
`[danglingStream, taggedStream, pictureStream]` the winner is the stream of
index 1: the outputs are its filename and MIME type, not the tags of its
neighbours.  In `[filenameOnlyStream]` the MIME tag is missing: the buffer is
returned, the filename is set and the MIME location is `NULL`. -/
theorem metadata_of_winner_witness :
    first_qualifying [danglingStream, taggedStream, pictureStream] 1 taggedStream ∧
    first_qualifying [filenameOnlyStream] 0 filenameOnlyStream ∧
    observable (thunar_extract_first_attachment
        (fun _ => Source.container [danglingStream, taggedStream, pictureStream])
        (some "a.mkv") (some (some "stale.txt")) (some (some "stale/type")))
      = (some [71, 73, 70], some (some "front.gif"), some (some "image/gif")) ∧
    observable (thunar_extract_first_attachment
        (fun _ => Source.container [filenameOnlyStream])
        (some "b.mkv") (some (some "stale.txt")) (some (some "stale/type")))
      = (some [66], some (some "blob.bin"), some none) := by
  have hwin : first_qualifying [danglingStream, taggedStream, pictureStream] 1
      taggedStream := by
    refine ⟨rfl, by decide, ?_⟩
    intro j hj sj hsj
    have hj0 : j = 0 := by omega
    subst hj0
    have : danglingStream = sj := by simpa using hsj
    subst this
    decide
  have hwin2 : first_qualifying [filenameOnlyStream] 0 filenameOnlyStream :=
    ⟨rfl, by decide, fun j hj => absurd hj (Nat.not_lt_zero j)⟩
  have h := metadata_of_winner
    (fun _ => Source.container [danglingStream, taggedStream, pictureStream]) "a.mkv"
    [danglingStream, taggedStream, pictureStream] (some (some "stale.txt"))
    (some (some "stale/type")) rfl 1 taggedStream hwin
  have g := metadata_of_winner (fun _ => Source.container [filenameOnlyStream]) "b.mkv"
    [filenameOnlyStream] (some (some "stale.txt")) (some (some "stale/type")) rfl 0
    filenameOnlyStream hwin2
  refine ⟨hwin, hwin2, ?_, ?_⟩
  · exact Prod.ext (h.1.trans (by decide))
      (Prod.ext (h.2.2.1.trans (by decide)) (h.2.2.2.1.trans (by decide)))
  · exact Prod.ext (g.1.trans (by decide))
      (Prod.ext (g.2.2.1.trans (by decide))
        (g.2.2.2.2.2.1 (by decide)))

/-- C5, refuted as stated: a path that cannot be opened, a file whose stream
information cannot be read and a readable container without a qualifying
stream give the caller the same returned value and the same out-locations. -/
theorem failures_not_distinguishable :
    observable (thunar_extract_first_attachment (fun _ => Source.unopenable)
        (some "clip.mkv") (some (some "old")) (some none))
      = observable (thunar_extract_first_attachment (fun _ => Source.unprobeable)
        (some "clip.mkv") (some (some "old")) (some none)) ∧
    observable (thunar_extract_first_attachment (fun _ => Source.unprobeable)
        (some "clip.mkv") (some (some "old")) (some none))
      = observable (thunar_extract_first_attachment
        (fun _ => Source.container [plainVideoStream])
        (some "clip.mkv") (some (some "old")) (some none)) ∧
    observable (thunar_extract_first_attachment (fun _ => Source.unopenable)
        (some "clip.mkv") (some (some "old")) (some none))
      = observable (thunar_extract_first_attachment
        (fun _ => Source.container [plainVideoStream])
        (some "clip.mkv") (some (some "old")) (some none)) := by
  decide

/-- C5, amended: a source that cannot be opened, a source whose stream
information cannot be read and a readable container with no qualifying stream
all give `NULL` with both out-locations holding what they held before the
call, so the three cases present the caller with one and the same result. -/
theorem failures_observably_equal (fs : String → Source) (p : String)
    (f m : Option (Option String))
    (h : fs p = Source.unopenable ∨ fs p = Source.unprobeable ∨
      ∃ streams, fs p = Source.container streams ∧ ∀ st ∈ streams, qualifies st = false) :
    observable (thunar_extract_first_attachment fs (some p) f m) = (none, f, m) := by
  rcases h with h | h | ⟨streams, hfs, hq⟩
  · exact extract_not_container fs (some p) f m (fun q streams hq hc => by
      cases hq
      rw [h] at hc
      exact Source.noConfusion hc)
  · exact extract_not_container fs (some p) f m (fun q streams hq hc => by
      cases hq
      rw [h] at hc
      exact Source.noConfusion hc)
  · rcases extract_container_cases fs p streams f m hfs with ⟨_, hobs⟩ | ⟨k, st, hw, _⟩
    · exact hobs
    · have := hq st (List.getElem?_mem hw.1)
      rw [qualifies_eq, hw.2.1] at this
      exact absurd this (by decide)

/-- C5 (amended) at a file whose stream information cannot be read. -/
theorem failures_observably_equal_witness :
    ((fun _ : String => Source.unprobeable) "notes.txt" = Source.unopenable ∨
      (fun _ : String => Source.unprobeable) "notes.txt" = Source.unprobeable ∨
      ∃ streams, (fun _ : String => Source.unprobeable) "notes.txt" = Source.container streams ∧
        ∀ st ∈ streams, qualifies st = false) ∧
    observable (thunar_extract_first_attachment (fun _ => Source.unprobeable)
      (some "notes.txt") (some (some "old")) none) = (none, some (some "old"), none) :=
  ⟨Or.inr (Or.inl rfl),
    failures_observably_equal (fun _ => Source.unprobeable) "notes.txt" (some (some "old")) none
      (Or.inr (Or.inl rfl))⟩

/-- C6: resource release on every path.  At return the handle is closed, for
every input.  When the open succeeded the log of the call ends with the one
and only `avformat_close_input`, so that every stream read, buffer copy and
tag lookup comes before it; when the path is `NULL` or the open failed, no
handle was ever opened and none is closed. -/
theorem handle_released (fs : String → Source) (path : Option String)
    (f m : Option (Option String)) :
    (thunar_extract_first_attachment fs path f m).2.fmt = Handle.closed ∧
    ((∃ p, path = some p ∧ fs p ≠ Source.unopenable) →
      Event.open_input true ∈ (thunar_extract_first_attachment fs path f m).2.log ∧
      ∃ pre, (thunar_extract_first_attachment fs path f m).2.log = pre ++ [Event.close_input] ∧
        Event.close_input ∉ pre) ∧
    ((path = none ∨ ∃ p, path = some p ∧ fs p = Source.unopenable) →
      Event.open_input true ∉ (thunar_extract_first_attachment fs path f m).2.log ∧
      Event.close_input ∉ (thunar_extract_first_attachment fs path f m).2.log) := by
  cases path with
  | none =>
    refine ⟨rfl, ?_, ?_⟩
    · rintro ⟨p, hp, _⟩
      exact Option.noConfusion hp
    · intro _
      simp [thunar_extract_first_attachment]
  | some p =>
    cases hs : fs p with
    | unopenable =>
      refine ⟨by simp [thunar_extract_first_attachment, hs, State.emit], ?_, ?_⟩
      · rintro ⟨q, hq, hne⟩
        cases hq
        exact absurd hs hne
      · intro _
        simp [thunar_extract_first_attachment, hs, State.emit]
    | unprobeable =>
      refine ⟨by simp [thunar_extract_first_attachment, hs, State.emit, avformat_close_input],
        ?_, ?_⟩
      · intro _
        refine ⟨by simp [thunar_extract_first_attachment, hs, State.emit, avformat_close_input],
          [Event.network_init, Event.open_input true, Event.find_stream_info false,
            Event.print "[C-DEBUG] avformat_find_stream_info failed\n"], ?_, by simp⟩
        simp [thunar_extract_first_attachment, hs, State.emit, avformat_close_input]
      · rintro (h | ⟨q, hq, hu⟩)
        · exact Option.noConfusion h
        · cases hq
          rw [hs] at hu
          exact Source.noConfusion hu
    | container streams =>
      have hmain : ∃ s2, thunar_extract_first_attachment fs (some p) f m
            = ((thunar_extract_first_attachment fs (some p) f m).1, avformat_close_input s2) ∧
          s2.fmt = Handle.opened ∧ Event.open_input true ∈ s2.log ∧
          Event.close_input ∉ s2.log := by
        by_cases h : ∃ st ∈ streams, has_attached_payload st = true
        · obtain ⟨k, st, hk, hq, hmin⟩ := exists_first_index has_attached_payload streams h
          obtain ⟨s1, h1, _, _, _, _⟩ := extract_first fs p streams f m hs k st hk hq hmin
          obtain ⟨s0, e1, e2, _, _, evs, e5, e6⟩ :=
            scan_streams_first streams k st hk hq hmin 0 (loop_entry f m)
          have hx : thunar_extract_first_attachment fs (some p) f m
              = (some (attached_payload st), avformat_close_input (read_tags (0 + k) st s0)) := by
            rw [extract_container fs p streams f m hs, e1]
          refine ⟨read_tags (0 + k) st s0, by rw [hx], ?_, ?_, ?_⟩
          · rw [read_tags_fmt, e2]; rfl
          · rw [read_tags_log, e5]
            simp [loop_entry]
          · rw [read_tags_log, e5]
            simp [loop_entry, e6]
        · have h0 : ∀ st ∈ streams, has_attached_payload st = false := by
            intro st hst
            cases hp : has_attached_payload st with
            | false => rfl
            | true => exact absurd ⟨st, hst, hp⟩ h
          obtain ⟨e1, e2, _, _, evs, e5, e6⟩ :=
            scan_streams_no_payload streams h0 0 (loop_entry f m)
          have hx : thunar_extract_first_attachment fs (some p) f m
              = (none, avformat_close_input (scan_streams 0 streams (loop_entry f m)).2) := by
            rw [extract_container fs p streams f m hs]
            rcases hr : scan_streams 0 streams (loop_entry f m) with ⟨r, s2⟩
            rw [hr] at e1
            simp only at e1
            subst e1
            rfl
          refine ⟨(scan_streams 0 streams (loop_entry f m)).2, by rw [hx], ?_, ?_, ?_⟩
          · rw [e2]; rfl
          · rw [e5]
            simp [loop_entry]
          · rw [e5]
            simp [loop_entry, e6]
      obtain ⟨s2, hx, hopen, hin, hnot⟩ := hmain
      rw [hx, avformat_close_input_opened s2 hopen]
      refine ⟨rfl, ?_, ?_⟩
      · intro _
        exact ⟨by simp [hin], s2.log, rfl, hnot⟩
      · rintro (h | ⟨q, hq, hu⟩)
        · exact Option.noConfusion h
        · cases hq
          rw [hs] at hu
          exact Source.noConfusion hu

/-- C7: collapsing the duplicated branches is not a behaviour change.  On a
readable container the two-branch loop gives the caller the same buffer and
the same filename and MIME locations as the single pass that returns the first
stream satisfying the one qualifying predicate, for every stream list and
every combination of out-parameters. -/
theorem two_branches_refine_single_pass (fs : String → Source) (p : String)
    (streams : List AVStream) (f m : Option (Option String))
    (hfs : fs p = Source.container streams) :
    observable (thunar_extract_first_attachment fs (some p) f m)
      = find_first_attachment_single_pass streams f m := by
  rcases extract_container_cases fs p streams f m hfs with ⟨h0, hobs⟩ | ⟨k, st, hw, hobs⟩
  · rw [hobs, single_pass_no_payload streams f m h0]
  · rw [hobs, single_pass_first streams f m k st hw]

/-- C7 at the container `[fontStream, pictureStream, coverStream]`. -/
theorem two_branches_refine_single_pass_witness :
    (fun _ : String => Source.container [fontStream, pictureStream, coverStream]) "a.mkv"
      = Source.container [fontStream, pictureStream, coverStream] ∧
    observable (thunar_extract_first_attachment
        (fun _ => Source.container [fontStream, pictureStream, coverStream])
        (some "a.mkv") (some none) (some (some "old")))
      = find_first_attachment_single_pass [fontStream, pictureStream, coverStream]
        (some none) (some (some "old")) :=
  ⟨rfl, two_branches_refine_single_pass
    (fun _ => Source.container [fontStream, pictureStream, coverStream]) "a.mkv"
    [fontStream, pictureStream, coverStream] (some none) (some (some "old")) rfl⟩

/-- C8, the code at the failing input: the only stream has codec type
ATTACHMENT, four bytes of payload in its codec extradata and an empty
`attached_pic`; the function returns `NULL` and leaves the out-locations
alone. -/
theorem extradata_attachment_not_read :
    is_attachment_type fontStream = true ∧
    fontStream.codecpar.map (fun cp => (cp.extradata, cp.extradata_size))
      = some (some [0, 1, 0, 0], 4) ∧
    fontStream.attached_pic = emptyPacket ∧
    observable (thunar_extract_first_attachment (fun _ => Source.container [fontStream])
      (some "subs.mkv") (some none) (some none)) = (none, some none, some none) := by
  decide

/-- C9: exact success condition.  The function returns a buffer exactly when
the path is not `NULL`, the open and the stream-info probe succeed, and some
stream has `attached_pic.size > 0` with a non-`NULL` `attached_pic.data`.  A
container all of whose streams have a positive size with `NULL` data, or codec
type ATTACHMENT with an empty `attached_pic`, gives `NULL`. -/
theorem success_iff (fs : String → Source) (path : Option String)
    (f m : Option (Option String)) :
    ((thunar_extract_first_attachment fs path f m).1 ≠ none ↔
      ∃ p streams, path = some p ∧ fs p = Source.container streams ∧
        ∃ st ∈ streams, st.attached_pic.size > 0 ∧ st.attached_pic.data ≠ none) ∧
    (∀ p streams, path = some p → fs p = Source.container streams →
      (∀ st ∈ streams, (st.attached_pic.size > 0 ∧ st.attached_pic.data = none) ∨
        (is_attachment_type st = true ∧
          ¬ (st.attached_pic.size > 0 ∧ st.attached_pic.data ≠ none))) →
      (thunar_extract_first_attachment fs path f m).1 = none) := by
  have htest : ∀ st : AVStream, has_attached_payload st = true ↔
      (st.attached_pic.size > 0 ∧ st.attached_pic.data ≠ none) := by
    intro st
    unfold has_attached_payload
    cases st.attached_pic.data <;> simp
  have hiff : (thunar_extract_first_attachment fs path f m).1 ≠ none ↔
      ∃ p streams, path = some p ∧ fs p = Source.container streams ∧
        ∃ st ∈ streams, st.attached_pic.size > 0 ∧ st.attached_pic.data ≠ none := by
    constructor
    · intro hne
      by_cases hc : ∃ p streams, path = some p ∧ fs p = Source.container streams
      · obtain ⟨p, streams, hp, hfs⟩ := hc
        subst hp
        refine ⟨p, streams, rfl, hfs, ?_⟩
        rcases extract_container_cases fs p streams f m hfs with ⟨_, hobs⟩ | ⟨k, st, hw, _⟩
        · exact absurd (congrArg Prod.fst hobs) hne
        · exact ⟨st, List.getElem?_mem hw.1, (htest st).mp hw.2.1⟩
      · have := extract_not_container fs path f m
          (fun p streams hp hfs => hc ⟨p, streams, hp, hfs⟩)
        exact absurd (congrArg Prod.fst this) hne
    · rintro ⟨p, streams, hp, hfs, st, hst, hq⟩
      subst hp
      rcases extract_container_cases fs p streams f m hfs with ⟨h0, _⟩ | ⟨k, st2, _, hobs⟩
      · have := h0 st hst
        rw [(htest st).mpr hq] at this
        exact absurd this (by decide)
      · have hret : (thunar_extract_first_attachment fs (some p) f m).1
            = some (attached_payload st2) := congrArg Prod.fst hobs
        rw [hret]
        simp
  refine ⟨hiff, ?_⟩
  intro p streams hp hfs hall
  by_contra hne
  obtain ⟨p2, streams2, hp2, hfs2, st, hst, hq⟩ := hiff.mp hne
  rw [hp] at hp2
  cases hp2
  rw [hfs] at hfs2
  cases hfs2
  rcases hall st hst with ⟨_, hd⟩ | ⟨_, hn⟩
  · exact hq.2 hd
  · exact hn hq

/-- C10: out-parameter frame.  When the function returns `NULL` both
out-locations hold what they held before the call.  When it returns a buffer,
taken from the first qualifying stream, each location that was passed holds
the value of that stream's tag, or `NULL` when the tag is missing, whatever it
held before; a `NULL` out-pointer stays `NULL`. -/
theorem out_parameter_frame (fs : String → Source) (path : Option String)
    (f m : Option (Option String)) :
    ((thunar_extract_first_attachment fs path f m).1 = none →
      (thunar_extract_first_attachment fs path f m).2.out_filename = f ∧
      (thunar_extract_first_attachment fs path f m).2.out_mime = m) ∧
    (∀ b, (thunar_extract_first_attachment fs path f m).1 = some b →
      ∃ p streams k st, path = some p ∧ fs p = Source.container streams ∧
        first_qualifying streams k st ∧ b = attached_payload st ∧
        (thunar_extract_first_attachment fs path f m).2.out_filename
          = f.map (fun _ => tag_value st "filename") ∧
        (thunar_extract_first_attachment fs path f m).2.out_mime
          = m.map (fun _ => tag_value st "mimetype")) := by
  have hcases : observable (thunar_extract_first_attachment fs path f m) = (none, f, m) ∨
      ∃ p streams k st, path = some p ∧ fs p = Source.container streams ∧
        first_with_payload streams k st ∧
        observable (thunar_extract_first_attachment fs path f m)
          = (some (attached_payload st), f.map (fun _ => tag_value st "filename"),
             m.map (fun _ => tag_value st "mimetype")) := by
    by_cases hc : ∃ p streams, path = some p ∧ fs p = Source.container streams
    · obtain ⟨p, streams, hp, hfs⟩ := hc
      subst hp
      rcases extract_container_cases fs p streams f m hfs with ⟨_, hobs⟩ | ⟨k, st, hw, hobs⟩
      · exact Or.inl hobs
      · exact Or.inr ⟨p, streams, k, st, rfl, hfs, hw, hobs⟩
    · exact Or.inl (extract_not_container fs path f m
        (fun p streams hp hfs => hc ⟨p, streams, hp, hfs⟩))
  rcases hcases with hobs | ⟨p, streams, k, st, hp, hfs, hw, hobs⟩
  · simp only [observable, Prod.mk.injEq] at hobs
    refine ⟨fun _ => ⟨hobs.2.1, hobs.2.2⟩, ?_⟩
    intro b hb
    rw [hobs.1] at hb
    exact Option.noConfusion hb
  · simp only [observable, Prod.mk.injEq] at hobs
    constructor
    · intro hn
      rw [hobs.1] at hn
      exact Option.noConfusion hn
    · intro b hb
      rw [hobs.1] at hb
      exact ⟨p, streams, k, st, hp, hfs, (first_qualifying_iff streams k st).mpr hw,
        (Option.some.inj hb).symm, hobs.2.1, hobs.2.2⟩

end ThunarMetadata
